import Mathlib

/-!
Shallow embedding of `source/blender/blenkernel/BKE_lib_query.hh`: the ID
reference-graph traversal framework (`BKE_library_foreach_ID_link` with its
edge-classification and control flags) and the unused-ID ("orphan") analysis
built on top of it.

The provided source is the interface header only: flag values, callback
signatures and the `LibQueryUnusedIDsData` parameter block are embedded
directly from it, while every function body (the walk controller, the
unused-ID analyzer, the orphan tagger and the linked-data candidate
clearing) is missing from the sources and is therefore modelled from the
specification document; each such definition carries a doc comment starting
with `Modelled from the spec:`.

Data-blocks are represented as an association list from a stable identifier
to a record holding the type tag, reference count, origin (local/linked),
marker bits and the declared outgoing typed pointer fields.
-/

/-! Edge-classification flags, the `IDWALK_CB_*` enum of `BKE_lib_query.hh`. -/

def IDWALK_CB_NOP : Nat := 0

def IDWALK_CB_NEVER_NULL : Nat := 1 <<< 0

def IDWALK_CB_NEVER_SELF : Nat := 1 <<< 1

def IDWALK_CB_INDIRECT_USAGE : Nat := 1 <<< 2

def IDWALK_CB_DIRECT_WEAK_LINK : Nat := 1 <<< 3

def IDWALK_CB_EMBEDDED : Nat := 1 <<< 4

def IDWALK_CB_EMBEDDED_NOT_OWNING : Nat := 1 <<< 5

def IDWALK_CB_LOOPBACK : Nat := 1 <<< 6

def IDWALK_CB_INTERNAL : Nat := 1 <<< 9

def IDWALK_CB_READFILE_IGNORE : Nat := 1 <<< 10

def IDWALK_CB_USER : Nat := 1 <<< 11

def IDWALK_CB_USER_ONE : Nat := 1 <<< 12

def IDWALK_CB_OVERRIDE_LIBRARY_REFERENCE : Nat := 1 <<< 16

/-! Visitor return flags, the `IDWALK_RET_*` enum of `BKE_lib_query.hh`. -/

def IDWALK_RET_NOP : Nat := 0

def IDWALK_RET_STOP_ITER : Nat := 1 <<< 0

def IDWALK_RET_STOP_RECURSION : Nat := 1 <<< 1

/-! Walk-configuration flags, the `IDWALK_*` enum of `BKE_lib_query.hh`. -/

def IDWALK_NOP : Nat := 0

def IDWALK_READONLY : Nat := 1 <<< 0

def IDWALK_RECURSE : Nat := 1 <<< 1

def IDWALK_INCLUDE_UI : Nat := 1 <<< 2

def IDWALK_IGNORE_EMBEDDED_ID : Nat := 1 <<< 3

def IDWALK_NO_ORIG_POINTERS_ACCESS : Nat := 1 <<< 5

def IDWALK_DO_INTERNAL_RUNTIME_POINTERS : Nat := 1 <<< 9

def IDWALK_DO_LIBRARY_POINTER : Nat := 1 <<< 10

def IDWALK_DO_DEPRECATED_POINTERS : Nat := 1 <<< 11

/-- Bit test on a flag word. -/
def hasFlag (flags bit : Nat) : Bool := flags &&& bit != 0

/-- Declared outgoing ID pointer field of a data-block: its edge
classification bitmask (`IDWALK_CB_*`), whether it belongs to the
UI-owned pointer subset (included only under `IDWALK_INCLUDE_UI`), and the
identifier of the target data-block. -/
structure LinkDecl where
  cb_flag : Nat
  ui : Bool
  target : Nat
deriving DecidableEq

/-- Data-block (node) payload: type tag index, reference count (`ID.us`),
origin classification (local vs. linked), runtime marker bits, and the
declared outgoing pointer fields discovered by the link enumerator. -/
structure NodeData where
  typeIdx : Nat
  us : Nat
  isLinked : Bool
  tag : Nat
  links : List LinkDecl
deriving DecidableEq

/-- Database of data-blocks, keyed by stable identifier. -/
abbrev Main := List (Nat × NodeData)

def lookupNode (g : Main) (n : Nat) : Option NodeData := List.lookup n g

def nodeLinks (g : Main) (n : Nat) : List LinkDecl :=
  ((lookupNode g n).map NodeData.links).getD []

def usOf (g : Main) (n : Nat) : Nat := ((lookupNode g n).map NodeData.us).getD 0

def typeOf (g : Main) (n : Nat) : Nat := ((lookupNode g n).map NodeData.typeIdx).getD 0

/-- One discovered edge as passed to the visitor callback
(`LibraryIDLinkCallbackData`): the ID owning the processed pointer, the
edge's classification bitmask, and the target identifier. -/
structure Edge where
  self_id : Nat
  cb_flag : Nat
  target : Nat
deriving DecidableEq

/-- Ephemeral state of one walk: identifiers already processed (used when
`IDWALK_RECURSE` is set), the ordered list of edges already handed to the
visitor, and the stop-all-iteration signal. -/
structure WalkState where
  visited : List Nat
  trace : List Edge
  stopAll : Bool
deriving DecidableEq

/-- Modelled from the spec: `BKE_lib_query_foreachid_iter_stop` (body not in
the provided sources) reports whether the current walk has been stopped. -/
def BKE_lib_query_foreachid_iter_stop (st : WalkState) : Bool := st.stopAll

/-- Whether internal runtime pointers are processed: requires
`IDWALK_DO_INTERNAL_RUNTIME_POINTERS`, which `IDWALK_RECURSE` excludes
(per the `IDWALK_RECURSE` documentation in the header). -/
def includeInternal (flags : Nat) : Bool :=
  hasFlag flags IDWALK_DO_INTERNAL_RUNTIME_POINTERS && !hasFlag flags IDWALK_RECURSE

/-- Whether a declared pointer field is enumerated under the given
configuration flags: UI-owned fields need `IDWALK_INCLUDE_UI`, internal
runtime pointers need the (non-recursive) internal-pointers option. -/
def linkIncluded (flags : Nat) (l : LinkDecl) : Bool :=
  (!l.ui || hasFlag flags IDWALK_INCLUDE_UI) &&
  (l.cb_flag &&& IDWALK_CB_INTERNAL == 0 || includeInternal flags)

/-- Modelled from the spec: the type-driven link enumerator output for one
data-block under the given configuration flags. -/
def edgesOf (g : Main) (flags : Nat) (n : Nat) : List LinkDecl :=
  (nodeLinks g n).filter (linkIncluded flags)

/-- Modelled from the spec: the per-node edge loop of the walk controller.
Each edge is handed to the visitor unless the stop-all signal is already
set; the visitor's `IDWALK_RET_STOP_ITER` bit raises stop-all, and its
`IDWALK_RET_STOP_RECURSION` bit removes the current edge's target from the
list of pending recursion targets (the second component). -/
def visitEdges (cb : Edge → Nat) (self : Nat) :
    List LinkDecl → WalkState → WalkState × List Nat
  | [], st => (st, [])
  | l :: rest, st =>
    if BKE_lib_query_foreachid_iter_stop st then (st, [])
    else
      let ret := cb ⟨self, l.cb_flag, l.target⟩
      let r := visitEdges cb self rest
        ⟨st.visited, st.trace ++ [⟨self, l.cb_flag, l.target⟩],
          hasFlag ret IDWALK_RET_STOP_ITER⟩
      if hasFlag ret IDWALK_RET_STOP_RECURSION || hasFlag ret IDWALK_RET_STOP_ITER then r
      else (r.1, l.target :: r.2)

/-- Modelled from the spec: the walk controller for one data-block.  With
`IDWALK_RECURSE`, a node already in the visited set is skipped, otherwise
its edges are enumerated and the surviving targets are walked in turn, in
sibling order.  The fuel argument bounds the nesting depth;
`BKE_library_foreach_ID_link` supplies enough for any walk over the
finite database. -/
def processNode (g : Main) (cb : Edge → Nat) (flags : Nat) :
    Nat → Nat → WalkState → WalkState
  | 0, _, st => st
  | fuel + 1, n, st =>
    if st.stopAll then st
    else if hasFlag flags IDWALK_RECURSE && st.visited.contains n then st
    else
      let r := visitEdges cb n (edgesOf g flags n) ⟨st.visited ++ [n], st.trace, st.stopAll⟩
      if hasFlag flags IDWALK_RECURSE then
        r.2.foldl (fun s t => processNode g cb flags fuel t s) r.1
      else r.1

/-- Modelled from the spec: `BKE_library_foreach_ID_link` — call the visitor
for each ID link that the given ID uses, honouring the configuration
flags. -/
def BKE_library_foreach_ID_link (g : Main) (id : Nat) (cb : Edge → Nat) (flags : Nat) :
    WalkState :=
  processNode g cb flags (g.length + 1) id ⟨[], [], false⟩

/-- Modelled from the spec: `BKE_library_ID_use_ID` — the number of times
`id_user` directly references `id_used`, counted over a non-recursive,
read-only walk of `id_user`. -/
def BKE_library_ID_use_ID (g : Main) (id_user id_used : Nat) : Nat :=
  ((BKE_library_foreach_ID_link g id_user (fun _ => IDWALK_RET_NOP)
      IDWALK_READONLY).trace.filter (fun e => e.target == id_used)).length

/-- Static per-type field metadata entry: the type a declared field can
point to, its edge classification, and whether it is a UI-owned field. -/
structure FieldDecl where
  targetType : Nat
  cb_flag : Nat
  ui : Bool
deriving DecidableEq

/-- Externally registered per-type field descriptor table. -/
abbrev TypeTable := List (Nat × List FieldDecl)

def typeFieldsOf (tt : TypeTable) (t : Nat) : List FieldDecl := (List.lookup t tt).getD []

/-- Modelled from the spec: `BKE_library_id_can_use_idtype` — the capability
query, computed from the owner type's statically declared field list alone
(no instance is consulted). -/
def BKE_library_id_can_use_idtype (tt : TypeTable) (owner_type used_type : Nat)
    (include_ui : Bool) : Bool :=
  (typeFieldsOf tt owner_type).any
    (fun fd => fd.targetType == used_type && (!fd.ui || include_ui))

/-- Conformance of an instance graph to the static type metadata: every
declared link of every node is covered by a field declaration of the
node's type with the matching target type and UI classification. -/
abbrev conformsTo (g : Main) (tt : TypeTable) : Prop :=
  ∀ q ∈ g, ∀ l ∈ q.2.links,
    ∃ fd ∈ typeFieldsOf tt q.2.typeIdx, fd.targetType = typeOf g l.target ∧ fd.ui = l.ui

/-- Parameter block of the unused-ID queries (`LibQueryUnusedIDsData` in the
header).  The three `num_*` result arrays of the C structure are modelled
as return values of the query functions below; the `filter_fn` callback is
modelled as a predicate on the data-block identifier. -/
structure LibQueryUnusedIDsData where
  do_local_ids : Bool := false
  do_linked_ids : Bool := false
  do_recursive : Bool := false
  filter_fn : Nat → Bool := fun _ => true

/-- Origin filter of an unused-ID request: linked data-blocks are
considered when `do_linked_ids` is set, local ones when `do_local_ids`
is set. -/
def originOk (p : LibQueryUnusedIDsData) (d : NodeData) : Bool :=
  if d.isLinked then p.do_linked_ids else p.do_local_ids

/-- Eligibility of a data-block to be called unused: the origin filters
plus the optional `filter_fn` predicate. -/
def eligible (p : LibQueryUnusedIDsData) (i : Nat) (d : NodeData) : Bool :=
  originOk p d && p.filter_fn i

/-- Valid ref-counting usage per the unused-ID analysis: a `USER` or
`USER_ONE` classified edge that is not towards embedded, loop-back or
internal-runtime data. -/
def qualifyingUsage (f : Nat) : Bool :=
  f &&& (IDWALK_CB_USER ||| IDWALK_CB_USER_ONE) != 0 &&
  f &&& (IDWALK_CB_LOOPBACK ||| IDWALK_CB_EMBEDDED ||| IDWALK_CB_INTERNAL) == 0

/-- Number of qualifying usage edges held by database nodes whose target is
`n` — the part of `n`'s reference count that is explained by the graph
itself.  A reference count above this number witnesses an external valid
user. -/
def inboundQualCount (g : Main) (n : Nat) : Nat :=
  (g.map (fun q =>
    (q.2.links.filter (fun l => qualifyingUsage l.cb_flag && l.target == n)).length)).sum

/-- Whether the target of an edge passes the origin filters of the request
(an edge towards a node outside the database is dropped). -/
def targetOriginOk (g : Main) (p : LibQueryUnusedIDsData) (t : Nat) : Bool :=
  ((lookupNode g t).map (originOk p)).getD false

/-- Modelled from the spec: targets of the qualifying usage edges of one
node walked by step (2) of the recursive analysis — `USER`/`USER_ONE`
edges excluding loop-back, embedded, internal-runtime ones and edges
whose target fails the origin filter (such targets are live roots of
their own and need no propagation). -/
def succList (g : Main) (p : LibQueryUnusedIDsData) (n : Nat) : List Nat :=
  ((nodeLinks g n).filter
    (fun l => qualifyingUsage l.cb_flag && targetOriginOk g p l.target)).map LinkDecl.target

/-- One expansion step of forward reachability over qualifying usage
edges. -/
def reachStep (g : Main) (p : LibQueryUnusedIDsData) (s : Finset Nat) : Finset Nat :=
  s ∪ s.biUnion (fun n => (succList g p n).toFinset)

/-- Modelled from the spec: the trusted live roots of the recursive
unused-ID analysis.  A node is a root when the origin filters or the
predicate exclude it from being called unused (the header documents such
nodes as always considered used), or when its reference count exceeds
its inbound qualifying usage edges, i.e. it has an external valid user.
Reading step (1) of the spec's recursive algorithm as literally every
node with a nonzero reference count would make an archipelago whose
counts come only from its internal mutual edges seed itself live,
contradicting the algorithm's own rationale ("an archipelago, by
construction, has no incoming edge from the live set") and the
reachability-correctness property of the spec, which demands such
clusters be counted unused; the external-reference reading keeps
both. -/
def liveSeeds (g : Main) (p : LibQueryUnusedIDsData) : Finset Nat :=
  ((g.filter (fun q => !eligible p q.1 q.2 ||
      decide (inboundQualCount g q.1 < q.2.us))).map Prod.fst).toFinset

/-- Modelled from the spec: the live set — forward reachability from the
live roots via qualifying usage edges, saturated over the finite
database. -/
def liveSet (g : Main) (p : LibQueryUnusedIDsData) : Finset Nat :=
  (reachStep g p)^[g.length] (liveSeeds g p)

/-- Modelled from the spec: the unused set of a request.  With
`do_recursive`, a node is unused when it is eligible per the origin
filters and predicate and was never marked live (archipelagos included);
otherwise a node is unused exactly when it is eligible and its own
reference count is zero. -/
def unusedList (g : Main) (p : LibQueryUnusedIDsData) : List (Nat × NodeData) :=
  if p.do_recursive then
    g.filter (fun q => eligible p q.1 q.2 && !(decide (q.1 ∈ liveSet g p)))
  else g.filter (fun q => eligible p q.1 q.2 && q.2.us == 0)

/-- Per-type count array over `T` type indices, with the aggregate count in
the final (`INDEX_ID_NULL`) slot. -/
def countsByType (l : List (Nat × NodeData)) (T : Nat) : List Nat :=
  (List.range T).map (fun t => (l.filter (fun q => q.2.typeIdx == t)).length) ++ [l.length]

/-- The three parallel result arrays (total, local, linked) for a given
unused set. -/
def unusedAmountsOf (u : List (Nat × NodeData)) (T : Nat) :
    List Nat × List Nat × List Nat :=
  (countsByType u T,
   countsByType (u.filter (fun q => !q.2.isLinked)) T,
   countsByType (u.filter (fun q => q.2.isLinked)) T)

/-- Modelled from the spec: `BKE_lib_query_unused_ids_amounts` — amounts of
unused IDs per type and in total, partitioned into local and linked
origin.  `T` models `INDEX_ID_MAX - 1`, the number of registered ID
types (the `DNA_ID.h` constant is not part of the provided sources). -/
def BKE_lib_query_unused_ids_amounts (g : Main) (T : Nat) (p : LibQueryUnusedIDsData) :
    List Nat × List Nat × List Nat :=
  unusedAmountsOf (unusedList g p) T

def num_total (g : Main) (T : Nat) (p : LibQueryUnusedIDsData) : List Nat :=
  (BKE_lib_query_unused_ids_amounts g T p).1

def num_local (g : Main) (T : Nat) (p : LibQueryUnusedIDsData) : List Nat :=
  (BKE_lib_query_unused_ids_amounts g T p).2.1

def num_linked (g : Main) (T : Nat) (p : LibQueryUnusedIDsData) : List Nat :=
  (BKE_lib_query_unused_ids_amounts g T p).2.2

/-- Set the caller-chosen marker bits on a data-block. -/
def setTag (marker : Nat) (d : NodeData) : NodeData := { d with tag := d.tag ||| marker }

/-- Tag one data-block when its identifier belongs to the unused set. -/
def tagOne (marker : Nat) (uids : List Nat) (i : Nat) (d : NodeData) : NodeData :=
  if uids.contains i then setTag marker d else d

/-- Tag every data-block of the given identifier list with the marker. -/
def tagNodes (marker : Nat) (uids : List Nat) (g : Main) : Main :=
  g.map (fun q => (q.1, tagOne marker uids q.1 q.2))

/-- Modelled from the spec: `BKE_lib_query_unused_ids_tag` — tag all unused
IDs with the caller-chosen marker and return the amounts.  A zero marker
is rejected as an invalid argument: the call fails (`none`) and no node is
tagged. -/
def BKE_lib_query_unused_ids_tag (g : Main) (T : Nat) (marker : Nat)
    (p : LibQueryUnusedIDsData) : Option (Main × (List Nat × List Nat × List Nat)) :=
  if marker = 0 then none
  else
    some (tagNodes marker ((unusedList g p).map Prod.fst) g,
      unusedAmountsOf (unusedList g p) T)

/-- Identifiers of the linked data-blocks of the database. -/
def linkedIds (g : Main) : Finset Nat :=
  ((g.filter (fun q => q.2.isLinked)).map Prod.fst).toFinset

/-- Identifiers of the nodes holding at least one declared link towards
`n` (the inbound reference set of `n`). -/
def inboundSources (g : Main) (n : Nat) : List Nat :=
  (g.filter (fun q => (q.2.links.map LinkDecl.target).contains n)).map Prod.fst

/-- Modelled from the spec: `BKE_library_unused_linked_data_set_tag` with
`do_init_tag = true` — initialise the candidate marker on all linked
data-blocks.  The marker assignment is modelled as the set of marked
identifiers. -/
def BKE_library_unused_linked_data_set_tag (g : Main) : Finset Nat := linkedIds g

/-- Modelled from the spec: one pass of
`BKE_library_indirectly_used_data_tag_clear` — clear the candidate marker
from any marked node that has an inbound reference from a node that lacks
the marker. -/
def BKE_library_indirectly_used_data_tag_clear (g : Main) (M : Finset Nat) : Finset Nat :=
  M.filter (fun n => ∀ u ∈ inboundSources g n, u ∈ M)

/-- Fixed point of the candidate clearing: the clearing pass iterated once
per linked data-block, starting from the full candidate initialisation. -/
def candidateFix (g : Main) : Finset Nat :=
  (BKE_library_indirectly_used_data_tag_clear g)^[(linkedIds g).card]
    (BKE_library_unused_linked_data_set_tag g)

/-- Example database: a two-node reference cycle, used to exercise the
recursive walk. -/
def cycleMain : Main :=
  [(1, ⟨0, 1, false, 0, [⟨IDWALK_CB_USER, false, 2⟩]⟩),
   (2, ⟨0, 1, false, 0, [⟨IDWALK_CB_USER, false, 1⟩]⟩)]

/-- Example database: one live root plus a two-node archipelago whose
nonzero reference counts come only from its internal mutual `USER`
edges. -/
def exampleMain : Main :=
  [(1, ⟨0, 1, false, 0, []⟩),
   (2, ⟨0, 1, false, 0, [⟨IDWALK_CB_USER, false, 3⟩]⟩),
   (3, ⟨0, 1, false, 0, [⟨IDWALK_CB_USER, false, 2⟩]⟩)]

/-- Example request covering all origins, with a trivial predicate. -/
def exampleParams : LibQueryUnusedIDsData := ⟨true, true, false, fun _ => true⟩

/-- Example database for the orphan tagger: a single unused local node. -/
def tagMain : Main := [(1, ⟨0, 0, false, 0, []⟩)]

/-- The `tagMain` database after tagging its unused node with marker 4. -/
def tagMainTagged : Main := [(1, ⟨0, 0, false, 4, []⟩)]

/-- Example type table: type 0 declares a single non-UI `USER` field towards
type 1. -/
def exampleTable : TypeTable := [(0, [⟨1, IDWALK_CB_USER, false⟩])]

/-- Example database conforming to `exampleTable`. -/
def capMain : Main :=
  [(1, ⟨0, 1, false, 0, [⟨IDWALK_CB_USER, false, 2⟩]⟩),
   (2, ⟨1, 1, false, 0, []⟩)]

/-- Example database holding an internal runtime pointer edge next to a
regular `USER` edge. -/
def internalMain : Main :=
  [(1, ⟨0, 1, false, 0, [⟨IDWALK_CB_INTERNAL, false, 2⟩, ⟨IDWALK_CB_USER, false, 2⟩]⟩),
   (2, ⟨0, 1, false, 0, []⟩)]

/-- Example database for the candidate clearing: a local root referencing a
linked chain, plus a linked two-node cycle with no outside user. -/
def linkedMain : Main :=
  [(1, ⟨0, 1, false, 0, [⟨IDWALK_CB_USER, false, 2⟩]⟩),
   (2, ⟨0, 1, true, 0, [⟨IDWALK_CB_USER, false, 3⟩]⟩),
   (3, ⟨0, 1, true, 0, []⟩),
   (4, ⟨0, 1, true, 0, [⟨IDWALK_CB_USER, false, 5⟩]⟩),
   (5, ⟨0, 1, true, 0, [⟨IDWALK_CB_USER, false, 4⟩]⟩)]

/-! ### Auxiliary facts about the walk controller -/

theorem hasFlag_nop_iter : hasFlag IDWALK_RET_NOP IDWALK_RET_STOP_ITER = false := by decide

theorem hasFlag_nop_rec : hasFlag IDWALK_RET_NOP IDWALK_RET_STOP_RECURSION = false := by decide

theorem visitEdges_stop (cb : Edge → Nat) (self : Nat) (ls : List LinkDecl)
    (st : WalkState) (h : st.stopAll = true) : visitEdges cb self ls st = (st, []) := by
  cases ls with
  | nil => rfl
  | cons l rest => simp [visitEdges, BKE_lib_query_foreachid_iter_stop, h]

theorem visitEdges_visited (cb : Edge → Nat) (self : Nat) :
    ∀ (ls : List LinkDecl) (st : WalkState),
      ((visitEdges cb self ls st).1).visited = st.visited := by
  intro ls
  induction ls with
  | nil => intro st; rfl
  | cons l rest ih =>
    intro st
    cases h : st.stopAll with
    | true => rw [visitEdges_stop cb self _ st h]
    | false =>
      simp only [visitEdges, BKE_lib_query_foreachid_iter_stop, h, Bool.false_eq_true,
        if_false]
      split <;> simp [ih]

theorem visitEdges_trace_sub (cb : Edge → Nat) (self : Nat) :
    ∀ (ls : List LinkDecl) (st : WalkState) (e : Edge),
      e ∈ ((visitEdges cb self ls st).1).trace →
        e ∈ st.trace ∨ ∃ l ∈ ls, e = ⟨self, l.cb_flag, l.target⟩ := by
  intro ls
  induction ls with
  | nil => intro st e h; exact Or.inl h
  | cons l rest ih =>
    intro st e h
    cases hst : st.stopAll with
    | true => rw [visitEdges_stop cb self _ st hst] at h; exact Or.inl h
    | false =>
      simp only [visitEdges, BKE_lib_query_foreachid_iter_stop, hst, Bool.false_eq_true,
        if_false] at h
      have hmain : e ∈ ((visitEdges cb self rest
          ⟨st.visited, st.trace ++ [⟨self, l.cb_flag, l.target⟩],
            hasFlag (cb ⟨self, l.cb_flag, l.target⟩) IDWALK_RET_STOP_ITER⟩).1).trace := by
        revert h
        split <;> intro h <;> simpa using h
      rcases ih _ e hmain with h' | ⟨l', hl', rfl⟩
      · rcases List.mem_append.mp h' with h'' | h''
        · exact Or.inl h''
        · simp only [List.mem_singleton] at h''
          exact Or.inr ⟨l, List.mem_cons_self l rest, h''⟩
      · exact Or.inr ⟨l', List.mem_cons_of_mem l hl', rfl⟩

theorem visitEdges_targets_sub (cb : Edge → Nat) (self : Nat) :
    ∀ (ls : List LinkDecl) (st : WalkState) (t : Nat),
      t ∈ (visitEdges cb self ls st).2 → ∃ l ∈ ls, t = l.target := by
  intro ls
  induction ls with
  | nil => intro st t h; simp [visitEdges] at h
  | cons l rest ih =>
    intro st t h
    cases hst : st.stopAll with
    | true => rw [visitEdges_stop cb self _ st hst] at h; simp at h
    | false =>
      simp only [visitEdges, BKE_lib_query_foreachid_iter_stop, hst, Bool.false_eq_true,
        if_false] at h
      revert h
      split <;> intro h
      · rcases ih _ t h with ⟨l', hl', rfl⟩
        exact ⟨l', List.mem_cons_of_mem l hl', rfl⟩
      · rcases List.mem_cons.mp h with h' | h'
        · exact ⟨l, List.mem_cons_self l rest, h'⟩
        · rcases ih _ t h' with ⟨l', hl', rfl⟩
          exact ⟨l', List.mem_cons_of_mem l hl', rfl⟩

theorem visitEdges_nop (cb : Edge → Nat) (self : Nat) (hcb : ∀ e, cb e = IDWALK_RET_NOP) :
    ∀ (ls : List LinkDecl) (st : WalkState), st.stopAll = false →
      visitEdges cb self ls st =
        (⟨st.visited, st.trace ++ ls.map (fun l => ⟨self, l.cb_flag, l.target⟩), false⟩,
         ls.map LinkDecl.target) := by
  intro ls
  induction ls with
  | nil =>
    intro st h
    cases st with
    | mk v tr s => simp at h; subst h; simp [visitEdges]
  | cons l rest ih =>
    intro st h
    simp only [visitEdges, BKE_lib_query_foreachid_iter_stop, h, Bool.false_eq_true,
      if_false, hcb, hasFlag_nop_iter, hasFlag_nop_rec, Bool.or_false]
    have hih := ih ⟨st.visited, st.trace ++ [⟨self, l.cb_flag, l.target⟩], false⟩ rfl
    rw [hih]
    simp

theorem processNode_stop (g : Main) (cb : Edge → Nat) (flags : Nat) (fuel n : Nat)
    (st : WalkState) (h : st.stopAll = true) : processNode g cb flags fuel n st = st := by
  cases fuel with
  | zero => rfl
  | succ f => simp [processNode, h]

theorem foldl_processNode_stop (g : Main) (cb : Edge → Nat) (flags : Nat) (fuel : Nat) :
    ∀ (ts : List Nat) (st : WalkState), st.stopAll = true →
      ts.foldl (fun s t => processNode g cb flags fuel t s) st = st := by
  intro ts
  induction ts with
  | nil => intro st _; rfl
  | cons t ts ih =>
    intro st h
    simp only [List.foldl_cons]
    rw [processNode_stop g cb flags fuel t st h]
    exact ih st h

theorem processNode_trace_sub (g : Main) (cb : Edge → Nat) (flags : Nat) :
    ∀ (fuel n : Nat) (st : WalkState) (e : Edge),
      e ∈ (processNode g cb flags fuel n st).trace →
        e ∈ st.trace ∨ ∃ l ∈ edgesOf g flags e.self_id,
          e = ⟨e.self_id, l.cb_flag, l.target⟩ := by
  intro fuel
  induction fuel with
  | zero => intro n st e h; exact Or.inl h
  | succ f ih =>
    have hfold : ∀ (ts : List Nat) (st0 : WalkState) (e : Edge),
        e ∈ (ts.foldl (fun s t => processNode g cb flags f t s) st0).trace →
          e ∈ st0.trace ∨ ∃ l ∈ edgesOf g flags e.self_id,
            e = ⟨e.self_id, l.cb_flag, l.target⟩ := by
      intro ts
      induction ts with
      | nil => intro st0 e h0; exact Or.inl h0
      | cons t ts iht =>
        intro st0 e h0
        simp only [List.foldl_cons] at h0
        rcases iht _ e h0 with h1 | h1
        · exact ih t st0 e h1
        · exact Or.inr h1
    intro n st e h
    simp only [processNode] at h
    split at h
    · exact Or.inl h
    · split at h
      · exact Or.inl h
      · have hve : ∀ (e : Edge),
            e ∈ ((visitEdges cb n (edgesOf g flags n)
                ⟨st.visited ++ [n], st.trace, st.stopAll⟩).1).trace →
              e ∈ st.trace ∨ ∃ l ∈ edgesOf g flags e.self_id,
                e = ⟨e.self_id, l.cb_flag, l.target⟩ := by
          intro e' he'
          rcases visitEdges_trace_sub cb n _ _ e' he' with h2 | ⟨l, hl, rfl⟩
          · exact Or.inl h2
          · exact Or.inr ⟨l, hl, rfl⟩
        revert h
        split <;> intro h
        · rcases hfold _ _ _ h with h1 | h1
          · exact hve e h1
          · exact Or.inr h1
        · exact hve e h

theorem processNode_visited_nodup (g : Main) (cb : Edge → Nat) (flags : Nat)
    (hrec : hasFlag flags IDWALK_RECURSE = true) :
    ∀ (fuel n : Nat) (st : WalkState), st.visited.Nodup →
      (processNode g cb flags fuel n st).visited.Nodup := by
  intro fuel
  induction fuel with
  | zero => intro n st h; exact h
  | succ f ih =>
    have hfold : ∀ (ts : List Nat) (st0 : WalkState), st0.visited.Nodup →
        (ts.foldl (fun s t => processNode g cb flags f t s) st0).visited.Nodup := by
      intro ts
      induction ts with
      | nil => intro st0 h0; exact h0
      | cons t ts iht =>
        intro st0 h0
        simp only [List.foldl_cons]
        exact iht _ (ih t st0 h0)
    intro n st h
    cases hst : st.stopAll with
    | true => rw [processNode_stop g cb flags (f + 1) n st hst]; exact h
    | false =>
      cases hcn : st.visited.contains n with
      | true =>
        simp only [processNode, hst, Bool.false_eq_true, if_false, hrec, hcn,
          Bool.and_self, if_true]
        exact h
      | false =>
        have hnmem : n ∉ st.visited := by simpa using hcn
        have hnodup1 : (st.visited ++ [n]).Nodup := by
          rw [List.nodup_append]
          refine ⟨h, List.nodup_singleton n, ?_⟩
          intro a ha hb
          simp only [List.mem_singleton] at hb
          subst hb
          exact hnmem ha
        simp only [processNode, hst, Bool.false_eq_true, if_false, hrec, hcn,
          Bool.true_and, if_true]
        apply hfold
        rw [visitEdges_visited]
        exact hnodup1

theorem processNode_nonrec (g : Main) (cb : Edge → Nat) (flags : Nat)
    (hrec : hasFlag flags IDWALK_RECURSE = false) (fuel n : Nat) (st : WalkState)
    (hst : st.stopAll = false) :
    processNode g cb flags (fuel + 1) n st =
      (visitEdges cb n (edgesOf g flags n) ⟨st.visited ++ [n], st.trace, st.stopAll⟩).1 := by
  simp [processNode, hst, hrec]

/-- Claim C2: once the visitor's return value includes `IDWALK_RET_STOP_ITER`
on some edge, no further edge of the whole walk is visited — the stop-all
state absorbs both the per-node edge loop and any pending node processing,
and the edge raising it is the last one traced; if the return value includes
only `IDWALK_RET_STOP_RECURSION`, the current edge's target is removed from
the pending recursion targets while the sibling edges of the current node
are still visited. -/
theorem claim_C2 :
    (∀ (g : Main) (cb : Edge → Nat) (flags fuel n : Nat) (st : WalkState),
        st.stopAll = true → processNode g cb flags fuel n st = st)
    ∧ (∀ (cb : Edge → Nat) (self : Nat) (ls : List LinkDecl) (st : WalkState),
        st.stopAll = true → visitEdges cb self ls st = (st, []))
    ∧ (∀ (cb : Edge → Nat) (self : Nat) (l : LinkDecl) (rest : List LinkDecl)
        (st : WalkState), st.stopAll = false →
        hasFlag (cb ⟨self, l.cb_flag, l.target⟩) IDWALK_RET_STOP_ITER = true →
        visitEdges cb self (l :: rest) st =
          (⟨st.visited, st.trace ++ [⟨self, l.cb_flag, l.target⟩], true⟩, []))
    ∧ (∀ (cb : Edge → Nat) (self : Nat) (l : LinkDecl) (rest : List LinkDecl)
        (st : WalkState), st.stopAll = false →
        hasFlag (cb ⟨self, l.cb_flag, l.target⟩) IDWALK_RET_STOP_ITER = false →
        hasFlag (cb ⟨self, l.cb_flag, l.target⟩) IDWALK_RET_STOP_RECURSION = true →
        visitEdges cb self (l :: rest) st =
          visitEdges cb self rest
            ⟨st.visited, st.trace ++ [⟨self, l.cb_flag, l.target⟩], false⟩) := by
  refine ⟨?_, ?_, ?_, ?_⟩
  · intro g cb flags fuel n st h
    exact processNode_stop g cb flags fuel n st h
  · intro cb self ls st h
    exact visitEdges_stop cb self ls st h
  · intro cb self l rest st h hiter
    simp only [visitEdges, BKE_lib_query_foreachid_iter_stop, h, Bool.false_eq_true,
      if_false, hiter, Bool.or_true, if_true]
    exact visitEdges_stop cb self rest _ rfl
  · intro cb self l rest st h hiter hrec
    simp only [visitEdges, BKE_lib_query_foreachid_iter_stop, h, Bool.false_eq_true,
      if_false, hiter, hrec, Bool.true_or, if_true]

theorem claim_C2_witness :
    visitEdges (fun _ => IDWALK_RET_STOP_ITER) 7
        [⟨IDWALK_CB_USER, false, 3⟩, ⟨IDWALK_CB_USER, false, 4⟩] ⟨[], [], false⟩ =
      (⟨[], [⟨7, IDWALK_CB_USER, 3⟩], true⟩, []) :=
  claim_C2.2.2.1 (fun _ => IDWALK_RET_STOP_ITER) 7 ⟨IDWALK_CB_USER, false, 3⟩
    [⟨IDWALK_CB_USER, false, 4⟩] ⟨[], [], false⟩ rfl (by decide)

/-- Claim C3: a walk with `IDWALK_RECURSE` set visits each distinct node at
most once for the whole call (the visited set, keyed by node identity,
stays duplicate-free), and on the two-node cycle `1 → 2 → 1` the walk
terminates with both nodes visited exactly once each. -/
theorem claim_C3 :
    (∀ (g : Main) (cb : Edge → Nat) (flags fuel n : Nat) (st : WalkState),
        hasFlag flags IDWALK_RECURSE = true → st.visited.Nodup →
          (processNode g cb flags fuel n st).visited.Nodup)
    ∧ (BKE_library_foreach_ID_link cycleMain 1 (fun _ => IDWALK_RET_NOP)
        IDWALK_RECURSE).visited.count 1 = 1
    ∧ (BKE_library_foreach_ID_link cycleMain 1 (fun _ => IDWALK_RET_NOP)
        IDWALK_RECURSE).visited.count 2 = 1 := by
  refine ⟨?_, ?_, ?_⟩
  · intro g cb flags fuel n st hrec hnd
    exact processNode_visited_nodup g cb flags hrec fuel n st hnd
  · decide
  · decide

theorem claim_C3_witness :
    (processNode cycleMain (fun _ => IDWALK_RET_NOP) IDWALK_RECURSE 3 1
        ⟨[], [], false⟩).visited.Nodup :=
  claim_C3.1 cycleMain (fun _ => IDWALK_RET_NOP) IDWALK_RECURSE 3 1 ⟨[], [], false⟩
    (by decide) (by decide)

/-- Claim C8: `BKE_library_ID_use_ID` returns a non-negative count (a natural
number in this model) equal to the number of edges produced by a
non-recursive walk of `id_user` whose resolved target equals `id_used`,
which in turn is the number of enumerated pointer fields of `id_user`
targeting `id_used`. -/
theorem claim_C8 (g : Main) (id_user id_used : Nat) :
    BKE_library_ID_use_ID g id_user id_used =
      ((edgesOf g IDWALK_READONLY id_user).filter (fun l => l.target == id_used)).length := by
  unfold BKE_library_ID_use_ID BKE_library_foreach_ID_link
  rw [processNode_nonrec g _ IDWALK_READONLY (by decide) g.length id_user _ rfl]
  rw [visitEdges_nop _ _ (fun _ => rfl) _ _ rfl]
  simp [List.filter_map, Function.comp_def]

/-- Claim C10: a walk invoked with `IDWALK_RECURSE` never visits an
`IDWALK_CB_INTERNAL` classified edge, even when
`IDWALK_DO_INTERNAL_RUNTIME_POINTERS` is also passed: the recurse flag
excludes the internal-runtime-pointers option. -/
theorem claim_C10 (g : Main) (cb : Edge → Nat) (flags : Nat) (n : Nat)
    (hrec : hasFlag flags IDWALK_RECURSE = true) :
    (BKE_library_foreach_ID_link g n cb flags).trace.filter
      (fun e => e.cb_flag &&& IDWALK_CB_INTERNAL != 0) = [] := by
  rw [List.filter_eq_nil_iff]
  intro e he
  rcases processNode_trace_sub g cb flags (g.length + 1) n ⟨[], [], false⟩ e he with
    h | ⟨l, hl, he'⟩
  · simp at h
  · have hcb : e.cb_flag = l.cb_flag := by rw [he']
    simp only [edgesOf, List.mem_filter] at hl
    obtain ⟨-, hinc⟩ := hl
    simp only [linkIncluded, Bool.and_eq_true, Bool.or_eq_true] at hinc
    obtain ⟨-, hint⟩ := hinc
    rcases hint with hint | hint
    · simp only [beq_iff_eq] at hint
      simp [hcb, hint]
    · simp [includeInternal, hrec] at hint

theorem claim_C10_witness :
    (BKE_library_foreach_ID_link internalMain 1 (fun _ => IDWALK_RET_NOP)
        (IDWALK_RECURSE ||| IDWALK_DO_INTERNAL_RUNTIME_POINTERS)).trace.filter
      (fun e => e.cb_flag &&& IDWALK_CB_INTERNAL != 0) = [] :=
  claim_C10 internalMain (fun _ => IDWALK_RET_NOP)
    (IDWALK_RECURSE ||| IDWALK_DO_INTERNAL_RUNTIME_POINTERS) 1 (by decide)

/-! ### Association-list lookup facts -/

theorem lookup_mem : ∀ (g : Main) (n : Nat) (d : NodeData),
    lookupNode g n = some d → (n, d) ∈ g := by
  intro g
  induction g with
  | nil => intro n d h; simp [lookupNode, List.lookup] at h
  | cons a t ih =>
    intro n d h
    obtain ⟨k, v⟩ := a
    rw [lookupNode] at h
    cases he : n == k with
    | true =>
      rw [List.lookup, he] at h
      have h1 : v = d := by injection h
      have h2 : n = k := by simpa using he
      subst h1
      subst h2
      exact List.mem_cons_self _ _
    | false =>
      rw [List.lookup, he] at h
      exact List.mem_cons_of_mem _ (ih n d h)

theorem mem_lookup_of_nodup : ∀ (g : Main), (g.map Prod.fst).Nodup →
    ∀ (n : Nat) (d : NodeData), (n, d) ∈ g → lookupNode g n = some d := by
  intro g
  induction g with
  | nil => intro _ n d h; simp at h
  | cons a t ih =>
    intro hnd n d h
    obtain ⟨k, v⟩ := a
    rw [List.map_cons, List.nodup_cons] at hnd
    rcases List.mem_cons.mp h with h1 | h2
    · have hk : n = k := by rw [Prod.mk.injEq] at h1; exact h1.1
      have hv : d = v := by rw [Prod.mk.injEq] at h1; exact h1.2
      subst hk
      subst hv
      rw [lookupNode, List.lookup]
      simp
    · have hne : n ≠ k := by
        intro hnk
        subst hnk
        exact hnd.1 (List.mem_map.mpr ⟨(n, d), h2, rfl⟩)
      have hbe : (n == k) = false := by simpa using hne
      rw [lookupNode, List.lookup, hbe]
      exact ih hnd.2 n d h2

/-- Claim C7: soundness of the capability query — if
`BKE_library_id_can_use_idtype` answers `false` for an owner type and a
used type (under a given UI-inclusion choice), then no walk of any
instance node, run with the corresponding UI-inclusion configuration over
a database conforming to the type table, ever produces an edge owned by a
node of the owner type whose target is a node of the used type.  The
query itself reads only the type's static declared field list. -/
theorem claim_C7 (g : Main) (tt : TypeTable) (owner_type used_type : Nat)
    (include_ui : Bool) (flags : Nat) (cb : Edge → Nat) (n : Nat)
    (hconf : conformsTo g tt)
    (hui : hasFlag flags IDWALK_INCLUDE_UI = include_ui)
    (hfalse : BKE_library_id_can_use_idtype tt owner_type used_type include_ui = false) :
    (BKE_library_foreach_ID_link g n cb flags).trace.filter
      (fun e => typeOf g e.self_id == owner_type && typeOf g e.target == used_type) = [] := by
  rw [List.filter_eq_nil_iff]
  intro e he
  rcases processNode_trace_sub g cb flags (g.length + 1) n ⟨[], [], false⟩ e he with
    h | ⟨l, hl, he'⟩
  · simp at h
  · have htgt : e.target = l.target := by rw [he']
    simp only [edgesOf, List.mem_filter] at hl
    obtain ⟨hmem, hinc⟩ := hl
    intro hpred
    simp only [Bool.and_eq_true, beq_iff_eq] at hpred
    obtain ⟨hown, hused⟩ := hpred
    cases hd : lookupNode g e.self_id with
    | none => rw [nodeLinks, hd] at hmem; simp at hmem
    | some d =>
      rw [nodeLinks, hd] at hmem
      simp only [Option.map_some', Option.getD_some] at hmem
      have hmem' : (e.self_id, d) ∈ g := lookup_mem g e.self_id d hd
      rcases hconf (e.self_id, d) hmem' l hmem with ⟨fd, hfd, hft, hfui⟩
      have hto : typeOf g e.self_id = d.typeIdx := by rw [typeOf, hd]; rfl
      have hcan : BKE_library_id_can_use_idtype tt owner_type used_type include_ui = true := by
        rw [BKE_library_id_can_use_idtype, ← hown, hto, List.any_eq_true]
        refine ⟨fd, hfd, ?_⟩
        rw [Bool.and_eq_true]
        constructor
        · rw [beq_iff_eq, hft, ← htgt, hused]
        · cases hu : fd.ui
          · simp
          · simp only [Bool.not_true, Bool.false_or]
            have hl_ui : l.ui = true := by rw [← hfui]; exact hu
            simp only [linkIncluded, Bool.and_eq_true, Bool.or_eq_true] at hinc
            obtain ⟨hu2, -⟩ := hinc
            rw [hl_ui] at hu2
            simp at hu2
            rw [← hui]
            exact hu2
      rw [hfalse] at hcan
      exact Bool.false_ne_true hcan

theorem claim_C7_witness :
    (BKE_library_foreach_ID_link capMain 1 (fun _ => IDWALK_RET_NOP) IDWALK_NOP).trace.filter
      (fun e => typeOf capMain e.self_id == 0 && typeOf capMain e.target == 2) = [] :=
  claim_C7 capMain exampleTable 0 2 false IDWALK_NOP (fun _ => IDWALK_RET_NOP) 1
    (by decide) (by decide) (by decide)

/-- Claim C9: calling the orphan tagger with a marker value of zero is
rejected as an invalid argument: for every database and request the call
fails (returns `none`), so no node is tagged and no amounts are
produced. -/
theorem claim_C9 (g : Main) (T : Nat) (p : LibQueryUnusedIDsData) :
    BKE_lib_query_unused_ids_tag g T 0 p = none := by
  simp [BKE_lib_query_unused_ids_tag]

/-! ### Marker bits are invisible to the unused-ID classification -/

theorem lookup_map_snd (f : Nat → NodeData → NodeData) :
    ∀ (g : Main) (n : Nat),
      lookupNode (g.map (fun q => (q.1, f q.1 q.2))) n = (lookupNode g n).map (f n) := by
  intro g
  induction g with
  | nil => intro n; rfl
  | cons a t ih =>
    intro n
    obtain ⟨k, v⟩ := a
    cases he : n == k with
    | true =>
      have hk : n = k := by simpa using he
      subst hk
      simp only [List.map_cons, lookupNode, List.lookup, he, Option.map_some']
    | false =>
      simp only [List.map_cons, lookupNode, List.lookup, he]
      exact ih n

theorem tagOne_us (marker : Nat) (uids : List Nat) (i : Nat) (d : NodeData) :
    (tagOne marker uids i d).us = d.us := by
  rw [tagOne]; split <;> rfl

theorem tagOne_isLinked (marker : Nat) (uids : List Nat) (i : Nat) (d : NodeData) :
    (tagOne marker uids i d).isLinked = d.isLinked := by
  rw [tagOne]; split <;> rfl

theorem tagOne_typeIdx (marker : Nat) (uids : List Nat) (i : Nat) (d : NodeData) :
    (tagOne marker uids i d).typeIdx = d.typeIdx := by
  rw [tagOne]; split <;> rfl

theorem tagOne_links (marker : Nat) (uids : List Nat) (i : Nat) (d : NodeData) :
    (tagOne marker uids i d).links = d.links := by
  rw [tagOne]; split <;> rfl

theorem setTag_idem (marker : Nat) (d : NodeData) :
    setTag marker (setTag marker d) = setTag marker d := by
  simp [setTag, Nat.or_assoc, Nat.or_self]

theorem tagOne_idem (marker : Nat) (uids : List Nat) (i : Nat) (d : NodeData) :
    tagOne marker uids i (tagOne marker uids i d) = tagOne marker uids i d := by
  unfold tagOne
  cases hc : uids.contains i with
  | true => simp [hc, setTag_idem]
  | false => simp [hc]

theorem nodeLinks_tagNodes (marker : Nat) (uids : List Nat) (g : Main) (n : Nat) :
    nodeLinks (tagNodes marker uids g) n = nodeLinks g n := by
  rw [tagNodes, nodeLinks, nodeLinks, lookup_map_snd]
  cases lookupNode g n with
  | none => rfl
  | some d => simp [tagOne_links]

theorem usOf_tagNodes (marker : Nat) (uids : List Nat) (g : Main) (n : Nat) :
    usOf (tagNodes marker uids g) n = usOf g n := by
  rw [tagNodes, usOf, usOf, lookup_map_snd]
  cases lookupNode g n with
  | none => rfl
  | some d => simp [tagOne_us]

theorem inboundQualCount_tagNodes (marker : Nat) (uids : List Nat) (g : Main) (n : Nat) :
    inboundQualCount (tagNodes marker uids g) n = inboundQualCount g n := by
  rw [inboundQualCount, inboundQualCount, tagNodes, List.map_map]
  congr 1
  apply List.map_congr_left
  intro q _
  simp [Function.comp_def, tagOne_links]

theorem targetOriginOk_tagNodes (marker : Nat) (uids : List Nat) (g : Main)
    (p : LibQueryUnusedIDsData) (t : Nat) :
    targetOriginOk (tagNodes marker uids g) p t = targetOriginOk g p t := by
  rw [targetOriginOk, targetOriginOk, tagNodes, lookup_map_snd]
  cases lookupNode g t with
  | none => rfl
  | some d => simp [originOk, tagOne_isLinked]

theorem succList_tagNodes (marker : Nat) (uids : List Nat) (g : Main)
    (p : LibQueryUnusedIDsData) (n : Nat) :
    succList (tagNodes marker uids g) p n = succList g p n := by
  simp only [succList, nodeLinks_tagNodes, targetOriginOk_tagNodes]

theorem reachStep_tagNodes (marker : Nat) (uids : List Nat) (g : Main)
    (p : LibQueryUnusedIDsData) :
    reachStep (tagNodes marker uids g) p = reachStep g p := by
  funext s
  rw [reachStep, reachStep]
  congr 1
  refine Finset.biUnion_congr rfl ?_
  intro n _
  rw [succList_tagNodes]

theorem liveSeeds_tagNodes (marker : Nat) (uids : List Nat) (g : Main)
    (p : LibQueryUnusedIDsData) :
    liveSeeds (tagNodes marker uids g) p = liveSeeds g p := by
  rw [liveSeeds, liveSeeds]
  simp only [inboundQualCount_tagNodes]
  rw [tagNodes, List.filter_map]
  congr 1
  rw [List.map_map]
  have hfil : (g.filter ((fun q => !eligible p q.1 q.2 ||
      decide (inboundQualCount g q.1 < q.2.us)) ∘
      fun q => (q.1, tagOne marker uids q.1 q.2))) =
      g.filter (fun q => !eligible p q.1 q.2 ||
        decide (inboundQualCount g q.1 < q.2.us)) := by
    apply List.filter_congr
    intro q _
    simp [Function.comp_def, eligible, originOk, tagOne_us, tagOne_isLinked]
  rw [hfil]
  apply List.map_congr_left
  intro q _
  rfl

theorem liveSet_tagNodes (marker : Nat) (uids : List Nat) (g : Main)
    (p : LibQueryUnusedIDsData) :
    liveSet (tagNodes marker uids g) p = liveSet g p := by
  rw [liveSet, liveSet, reachStep_tagNodes, liveSeeds_tagNodes, tagNodes, List.length_map]

theorem unusedList_tagNodes (marker : Nat) (uids : List Nat) (g : Main)
    (p : LibQueryUnusedIDsData) :
    unusedList (tagNodes marker uids g) p =
      (unusedList g p).map (fun q => (q.1, tagOne marker uids q.1 q.2)) := by
  rw [unusedList, unusedList]
  cases hp : p.do_recursive with
  | false =>
    simp only [Bool.false_eq_true, if_false]
    rw [tagNodes, List.filter_map]
    apply congrArg
    apply List.filter_congr
    intro q _
    simp [Function.comp_def, eligible, originOk, tagOne_us, tagOne_isLinked]
  | true =>
    simp only [if_true]
    rw [liveSet_tagNodes, tagNodes, List.filter_map]
    apply congrArg
    apply List.filter_congr
    intro q _
    simp [Function.comp_def, eligible, originOk, tagOne_us, tagOne_isLinked]

theorem countsByType_map_tagOne (marker : Nat) (uids : List Nat)
    (u : List (Nat × NodeData)) (T : Nat) :
    countsByType (u.map (fun q => (q.1, tagOne marker uids q.1 q.2))) T =
      countsByType u T := by
  rw [countsByType, countsByType, List.length_map]
  congr 1
  apply List.map_congr_left
  intro t _
  rw [List.filter_map, List.length_map]
  apply congrArg
  apply List.filter_congr
  intro q _
  simp [Function.comp_def, tagOne_typeIdx]

theorem unusedAmountsOf_map_tagOne (marker : Nat) (uids : List Nat)
    (u : List (Nat × NodeData)) (T : Nat) :
    unusedAmountsOf (u.map (fun q => (q.1, tagOne marker uids q.1 q.2))) T =
      unusedAmountsOf u T := by
  rw [unusedAmountsOf, unusedAmountsOf]
  have h1 : (u.map (fun q => (q.1, tagOne marker uids q.1 q.2))).filter
      (fun q => !q.2.isLinked) =
      (u.filter (fun q => !q.2.isLinked)).map (fun q => (q.1, tagOne marker uids q.1 q.2)) := by
    rw [List.filter_map]
    apply congrArg
    apply List.filter_congr
    intro q _
    simp [Function.comp_def, tagOne_isLinked]
  have h2 : (u.map (fun q => (q.1, tagOne marker uids q.1 q.2))).filter
      (fun q => q.2.isLinked) =
      (u.filter (fun q => q.2.isLinked)).map (fun q => (q.1, tagOne marker uids q.1 q.2)) := by
    rw [List.filter_map]
    apply congrArg
    apply List.filter_congr
    intro q _
    simp [Function.comp_def, tagOne_isLinked]
  rw [h1, h2, countsByType_map_tagOne, countsByType_map_tagOne, countsByType_map_tagOne]

/-- Claim C5: tagging is idempotent — with no intervening graph mutation, a
second `BKE_lib_query_unused_ids_tag` call with the same marker and
request returns the very same per-type/aggregate counts and leaves the
marker assignment of every node unchanged (the result database of the
second call is the result database of the first). -/
theorem claim_C5 (g : Main) (T : Nat) (p : LibQueryUnusedIDsData) (marker : Nat)
    (g₁ : Main) (c₁ : List Nat × List Nat × List Nat) (hm : marker ≠ 0)
    (h₁ : BKE_lib_query_unused_ids_tag g T marker p = some (g₁, c₁)) :
    BKE_lib_query_unused_ids_tag g₁ T marker p = some (g₁, c₁) := by
  rw [BKE_lib_query_unused_ids_tag, if_neg hm] at h₁
  rw [Option.some.injEq, Prod.mk.injEq] at h₁
  obtain ⟨hg, hc⟩ := h₁
  subst hg
  subst hc
  rw [BKE_lib_query_unused_ids_tag, if_neg hm]
  rw [Option.some.injEq, Prod.mk.injEq]
  have huids : (unusedList (tagNodes marker ((unusedList g p).map Prod.fst) g) p).map Prod.fst =
      (unusedList g p).map Prod.fst := by
    rw [unusedList_tagNodes, List.map_map]
    apply List.map_congr_left
    intro q _
    rfl
  constructor
  · rw [huids, tagNodes, tagNodes, List.map_map]
    apply List.map_congr_left
    intro q _
    simp only [Function.comp_def]
    rw [tagOne_idem]
  · rw [unusedList_tagNodes, unusedAmountsOf_map_tagOne]

theorem claim_C5_witness :
    BKE_lib_query_unused_ids_tag tagMainTagged 1 4 exampleParams =
      some (tagMainTagged, ([1, 1], [1, 1], [0, 0])) :=
  claim_C5 tagMain 1 exampleParams 4 tagMainTagged ([1, 1], [1, 1], [0, 0]) (by decide)
    (by decide)

/-! ### Candidate clearing: decrease, fixed point, maximality -/

theorem clear_subset (g : Main) (M : Finset Nat) :
    BKE_library_indirectly_used_data_tag_clear g M ⊆ M :=
  Finset.filter_subset _ _

theorem clear_iterate_subset (g : Main) : ∀ (k : Nat) (M : Finset Nat),
    (BKE_library_indirectly_used_data_tag_clear g)^[k] M ⊆ M := by
  intro k
  induction k with
  | zero => intro M; exact fun x hx => hx
  | succ k ih =>
    intro M
    rw [Function.iterate_succ_apply]
    exact (ih _).trans (clear_subset g M)

theorem clear_iterate_fix (g : Main) : ∀ (k : Nat) (M : Finset Nat), M.card ≤ k →
    BKE_library_indirectly_used_data_tag_clear g
        ((BKE_library_indirectly_used_data_tag_clear g)^[k] M) =
      (BKE_library_indirectly_used_data_tag_clear g)^[k] M := by
  intro k
  induction k with
  | zero =>
    intro M h
    have hM : M = ∅ := Finset.card_eq_zero.mp (Nat.le_zero.mp h)
    subst hM
    simp [BKE_library_indirectly_used_data_tag_clear]
  | succ k ih =>
    intro M h
    by_cases hfix : BKE_library_indirectly_used_data_tag_clear g M = M
    · rw [Function.iterate_fixed hfix]
      exact hfix
    · rw [Function.iterate_succ_apply]
      apply ih
      have hsub : BKE_library_indirectly_used_data_tag_clear g M ⊂ M :=
        Finset.ssubset_iff_subset_ne.mpr ⟨clear_subset g M, hfix⟩
      have hcard := Finset.card_lt_card hsub
      omega

theorem clear_iterate_maximal (g : Main) (S : Finset Nat)
    (hclosed : ∀ n ∈ S, ∀ u ∈ inboundSources g n, u ∈ S) :
    ∀ (k : Nat) (M : Finset Nat), S ⊆ M →
      S ⊆ (BKE_library_indirectly_used_data_tag_clear g)^[k] M := by
  intro k
  induction k with
  | zero => intro M h; exact h
  | succ k ih =>
    intro M h
    rw [Function.iterate_succ_apply]
    apply ih
    intro n hn
    rw [BKE_library_indirectly_used_data_tag_clear, Finset.mem_filter]
    exact ⟨h hn, fun u hu => h (hclosed n hn u hu)⟩

/-- Claim C6: after `BKE_library_unused_linked_data_set_tag` initialises the
candidate marker on all `N` linked data-blocks, iterating
`BKE_library_indirectly_used_data_tag_clear` at most `N` times reaches a
fixed point (a further pass removes no marker), and the fixed-point
marked set is exactly the maximal subset of linked nodes whose entire
inbound reference closure lies within that same subset: it is a subset of
the linked ids, it is closed under inbound references, and it contains
every inbound-closed subset of the linked ids. -/
theorem claim_C6 (g : Main) :
    BKE_library_indirectly_used_data_tag_clear g (candidateFix g) = candidateFix g
    ∧ candidateFix g ⊆ linkedIds g
    ∧ (∀ n ∈ candidateFix g, ∀ u ∈ inboundSources g n, u ∈ candidateFix g)
    ∧ ∀ S : Finset Nat, S ⊆ linkedIds g →
        (∀ n ∈ S, ∀ u ∈ inboundSources g n, u ∈ S) → S ⊆ candidateFix g := by
  have hfix : BKE_library_indirectly_used_data_tag_clear g (candidateFix g) =
      candidateFix g := by
    rw [candidateFix, BKE_library_unused_linked_data_set_tag]
    exact clear_iterate_fix g (linkedIds g).card (linkedIds g) le_rfl
  refine ⟨hfix, ?_, ?_, ?_⟩
  · rw [candidateFix, BKE_library_unused_linked_data_set_tag]
    exact clear_iterate_subset g _ _
  · intro n hn u hu
    rw [← hfix, BKE_library_indirectly_used_data_tag_clear, Finset.mem_filter] at hn
    exact hn.2 u hu
  · intro S hsub hclosed
    rw [candidateFix, BKE_library_unused_linked_data_set_tag]
    exact clear_iterate_maximal g S hclosed _ _ hsub

theorem claim_C6_witness :
    BKE_library_indirectly_used_data_tag_clear linkedMain (candidateFix linkedMain) =
      candidateFix linkedMain :=
  (claim_C6 linkedMain).1

/-! ### Count-array facts -/

theorem filter_partition_length {α : Type} (p q : α → Bool) (l : List α) :
    ((l.filter (fun a => !q a)).filter p).length + ((l.filter q).filter p).length
      = (l.filter p).length := by
  induction l with
  | nil => simp
  | cons a t ih =>
    cases hq : q a <;> cases hp : p a <;>
      simp only [List.filter_cons, hq, hp, Bool.not_true, Bool.not_false, Bool.false_eq_true,
        if_false, if_true, List.length_cons] <;> omega

theorem filter_length_mono {α : Type} (p q : α → Bool) :
    ∀ (l : List α), (∀ a ∈ l, p a = true → q a = true) →
      (l.filter p).length ≤ (l.filter q).length := by
  intro l
  induction l with
  | nil => intro _; simp
  | cons a t ih =>
    intro h
    have iht := ih fun x hx hpx => h x (List.mem_cons_of_mem a hx) hpx
    cases hp : p a with
    | false =>
      cases hq : q a with
      | false => simpa [List.filter_cons, hp, hq] using iht
      | true =>
        simp only [List.filter_cons, hp, hq, Bool.false_eq_true, if_false, if_true,
          List.length_cons]
        omega
    | true =>
      have hqa := h a (List.mem_cons_self a t) hp
      simp only [List.filter_cons, hp, hqa, if_true, List.length_cons]
      omega

theorem sum_map_add_nat {α : Type} (f h : α → Nat) (l : List α) :
    (l.map (fun a => f a + h a)).sum = (l.map f).sum + (l.map h).sum := by
  induction l with
  | nil => rfl
  | cons a t ih =>
    simp only [List.map_cons, List.sum_cons, ih]
    omega

theorem sum_range_indicator (x T : Nat) (h : x < T) :
    ((List.range T).map (fun t => if x == t then 1 else 0)).sum = 1 := by
  induction T with
  | zero => exact absurd h (by omega)
  | succ T ih =>
    rw [List.range_succ, List.map_append, List.sum_append]
    by_cases hx : x = T
    · subst hx
      have h0 : ((List.range x).map (fun t => if x == t then 1 else 0)).sum = 0 := by
        apply List.sum_eq_zero
        intro y hy
        simp only [List.mem_map, List.mem_range] at hy
        obtain ⟨t, ht, rfl⟩ := hy
        have hne : (x == t) = false := beq_eq_false_iff_ne.mpr (by omega)
        rw [hne]
        rfl
      rw [h0]
      simp
    · have hx' : x < T := by omega
      rw [ih hx']
      have hne : (x == T) = false := beq_eq_false_iff_ne.mpr hx
      simp [hne, hx]

theorem sum_type_counts : ∀ (l : List (Nat × NodeData)) (T : Nat),
    (∀ q ∈ l, q.2.typeIdx < T) →
    ((List.range T).map (fun t => (l.filter (fun q => q.2.typeIdx == t)).length)).sum
      = l.length := by
  intro l
  induction l with
  | nil =>
    intro T _
    apply List.sum_eq_zero
    intro y hy
    simp only [List.mem_map] at hy
    obtain ⟨t, -, rfl⟩ := hy
    simp
  | cons a l ih =>
    intro T h
    have ha := h a (List.mem_cons_self a l)
    have hl := fun q hq => h q (List.mem_cons_of_mem a hq)
    have hmap : (List.range T).map
        (fun t => ((a :: l).filter (fun q => q.2.typeIdx == t)).length) =
        (List.range T).map (fun t => (if a.2.typeIdx == t then 1 else 0)
          + (l.filter (fun q => q.2.typeIdx == t)).length) := by
      apply List.map_congr_left
      intro t _
      cases hq : a.2.typeIdx == t with
      | true =>
        simp only [List.filter_cons, hq, if_true, List.length_cons]
        omega
      | false => simp [List.filter_cons, hq]
    rw [hmap, sum_map_add_nat, ih T hl, sum_range_indicator a.2.typeIdx T ha]
    simp only [List.length_cons]
    omega

theorem countsByType_length (l : List (Nat × NodeData)) (T : Nat) :
    (countsByType l T).length = T + 1 := by
  simp [countsByType]

theorem countsByType_getD_lt (l : List (Nat × NodeData)) (T t : Nat) (h : t < T) :
    (countsByType l T).getD t 0 = (l.filter (fun q => q.2.typeIdx == t)).length := by
  rw [countsByType]
  rw [List.getD_append _ _ _ _ (by simpa using h)]
  rw [List.getD_eq_getElem _ _ (by simpa using h)]
  simp

theorem countsByType_getD_agg (l : List (Nat × NodeData)) (T : Nat) :
    (countsByType l T).getD T 0 = l.length := by
  rw [countsByType]
  rw [List.getD_eq_getElem _ _ (by simp)]
  rw [List.getElem_append_right (by simp)]
  simp

theorem countsByType_getD_gt (l : List (Nat × NodeData)) (T i : Nat) (h : T + 1 ≤ i) :
    (countsByType l T).getD i 0 = 0 :=
  List.getD_eq_default _ _ (by rw [countsByType_length]; omega)

theorem countsByType_take (l : List (Nat × NodeData)) (T : Nat) :
    (countsByType l T).take T =
      (List.range T).map (fun t => (l.filter (fun q => q.2.typeIdx == t)).length) := by
  rw [countsByType]
  exact List.take_left' (by simp)

theorem forall2_le_map {α : Type} (f h : α → Nat) (l : List α)
    (hle : ∀ a ∈ l, f a ≤ h a) :
    List.Forall₂ (· ≤ ·) (l.map f) (l.map h) := by
  induction l with
  | nil => exact List.Forall₂.nil
  | cons a t ih =>
    simp only [List.map_cons]
    exact List.Forall₂.cons (hle a (List.mem_cons_self a t))
      (ih fun x hx => hle x (List.mem_cons_of_mem a hx))

/-- Claim C4: after any unused-amounts call, all three result arrays are
fully populated (length `T + 1`: one slot per type, zero for types with
no unused members, plus the aggregate slot), for every slot the total
count is the local count plus the linked count, and each array's
aggregate slot equals the sum of its per-type entries, provided every
data-block's type index is a registered type. -/
theorem claim_C4 (g : Main) (T : Nat) (p : LibQueryUnusedIDsData)
    (hT : ∀ q ∈ g, q.2.typeIdx < T) :
    ((num_total g T p).length = T + 1 ∧ (num_local g T p).length = T + 1 ∧
      (num_linked g T p).length = T + 1)
    ∧ (∀ i : Nat, (num_total g T p).getD i 0 =
        (num_local g T p).getD i 0 + (num_linked g T p).getD i 0)
    ∧ ((num_total g T p).getD T 0 = ((num_total g T p).take T).sum
      ∧ (num_local g T p).getD T 0 = ((num_local g T p).take T).sum
      ∧ (num_linked g T p).getD T 0 = ((num_linked g T p).take T).sum) := by
  have hnt : num_total g T p = countsByType (unusedList g p) T := rfl
  have hnl : num_local g T p =
      countsByType ((unusedList g p).filter (fun q => !q.2.isLinked)) T := rfl
  have hnk : num_linked g T p =
      countsByType ((unusedList g p).filter (fun q => q.2.isLinked)) T := rfl
  have hu : ∀ q ∈ unusedList g p, q.2.typeIdx < T := by
    intro q hq
    apply hT
    rw [unusedList] at hq
    revert hq
    split <;> exact fun hq => List.mem_of_mem_filter hq
  have huloc : ∀ q ∈ (unusedList g p).filter (fun q => !q.2.isLinked), q.2.typeIdx < T :=
    fun q hq => hu q (List.mem_of_mem_filter hq)
  have hulin : ∀ q ∈ (unusedList g p).filter (fun q => q.2.isLinked), q.2.typeIdx < T :=
    fun q hq => hu q (List.mem_of_mem_filter hq)
  refine ⟨⟨?_, ?_, ?_⟩, ?_, ?_, ?_, ?_⟩
  · rw [hnt, countsByType_length]
  · rw [hnl, countsByType_length]
  · rw [hnk, countsByType_length]
  · intro i
    rcases Nat.lt_trichotomy i T with hi | hi | hi
    · rw [hnt, hnl, hnk, countsByType_getD_lt _ _ _ hi, countsByType_getD_lt _ _ _ hi,
        countsByType_getD_lt _ _ _ hi]
      exact (filter_partition_length _ _ _).symm
    · subst hi
      rw [hnt, hnl, hnk, countsByType_getD_agg, countsByType_getD_agg, countsByType_getD_agg]
      have hpart := filter_partition_length (fun _ => true) (fun q => q.2.isLinked)
        (unusedList g p)
      simpa [List.filter_true] using hpart.symm
    · rw [hnt, hnl, hnk, countsByType_getD_gt _ _ _ (by omega),
        countsByType_getD_gt _ _ _ (by omega), countsByType_getD_gt _ _ _ (by omega)]
  · rw [hnt, countsByType_getD_agg, countsByType_take, sum_type_counts _ _ hu]
  · rw [hnl, countsByType_getD_agg, countsByType_take, sum_type_counts _ _ huloc]
  · rw [hnk, countsByType_getD_agg, countsByType_take, sum_type_counts _ _ hulin]

theorem claim_C4_witness :
    (num_total exampleMain 1 exampleParams).length = 1 + 1 :=
  (claim_C4 exampleMain 1 exampleParams (by decide)).1.1

/-! ### Live-set facts for the unused-ID analysis -/

theorem subset_iterate_of_subset_step {F : Finset Nat → Finset Nat}
    (hF : ∀ t : Finset Nat, t ⊆ F t) : ∀ (k : Nat) (s : Finset Nat), s ⊆ F^[k] s := by
  intro k
  induction k with
  | zero => intro s; exact fun x hx => hx
  | succ k ih =>
    intro s
    rw [Function.iterate_succ_apply]
    exact (hF s).trans (ih (F s))

theorem liveSeeds_subset_liveSet (g : Main) (p : LibQueryUnusedIDsData) :
    liveSeeds g p ⊆ liveSet g p := by
  rw [liveSet]
  refine subset_iterate_of_subset_step (fun t => ?_) g.length _
  rw [reachStep]
  exact Finset.subset_union_left

theorem ineligible_mem_liveSeeds (g : Main) (p : LibQueryUnusedIDsData)
    (q : Nat × NodeData) (hq : q ∈ g) (hne : eligible p q.1 q.2 = false) :
    q.1 ∈ liveSeeds g p := by
  rw [liveSeeds, List.mem_toFinset]
  refine List.mem_map.mpr ⟨q, ?_, rfl⟩
  rw [List.mem_filter]
  refine ⟨hq, ?_⟩
  rw [Bool.or_eq_true]
  left
  rw [Bool.not_eq_true']
  exact hne

theorem inboundQualCount_pos (g : Main) (m : Nat) (d : NodeData) (l : LinkDecl)
    (hmem : (m, d) ∈ g) (hl : l ∈ d.links) (hq : qualifyingUsage l.cb_flag = true) :
    1 ≤ inboundQualCount g l.target := by
  rw [inboundQualCount]
  have hlmem : l ∈ d.links.filter
      (fun l' => qualifyingUsage l'.cb_flag && l'.target == l.target) := by
    rw [List.mem_filter]
    refine ⟨hl, ?_⟩
    rw [Bool.and_eq_true]
    exact ⟨hq, by simp⟩
  have hpos : 1 ≤ (d.links.filter
      (fun l' => qualifyingUsage l'.cb_flag && l'.target == l.target)).length :=
    List.length_pos.mpr (List.ne_nil_of_mem hlmem)
  have hmm : (d.links.filter
      (fun l' => qualifyingUsage l'.cb_flag && l'.target == l.target)).length ∈
      g.map (fun q => (q.2.links.filter
        (fun l' => qualifyingUsage l'.cb_flag && l'.target == l.target)).length) :=
    List.mem_map.mpr ⟨(m, d), hmem, rfl⟩
  exact hpos.trans (List.single_le_sum (fun x _ => Nat.zero_le x) _ hmm)

theorem liveSet_cases (g : Main) (p : LibQueryUnusedIDsData) :
    ∀ n ∈ liveSet g p, n ∈ liveSeeds g p ∨ 1 ≤ inboundQualCount g n := by
  rw [liveSet]
  generalize g.length = k
  induction k with
  | zero => intro n hn; exact Or.inl hn
  | succ k ih =>
    rw [Function.iterate_succ_apply']
    intro n hn
    rw [reachStep, Finset.mem_union] at hn
    rcases hn with hn | hn
    · exact ih n hn
    · right
      rw [Finset.mem_biUnion] at hn
      obtain ⟨m, _, hn⟩ := hn
      rw [List.mem_toFinset, succList] at hn
      simp only [List.mem_map, List.mem_filter] at hn
      obtain ⟨l, ⟨hl, hq⟩, rfl⟩ := hn
      rw [Bool.and_eq_true] at hq
      cases hd : lookupNode g m with
      | none => rw [nodeLinks, hd] at hl; simp at hl
      | some d =>
        rw [nodeLinks, hd] at hl
        simp only [Option.map_some', Option.getD_some] at hl
        exact inboundQualCount_pos g m d l (lookup_mem g m d hd) hl hq.1

theorem nodup_key_eq (g : Main) (hids : (g.map Prod.fst).Nodup)
    (q q' : Nat × NodeData) (hq : q ∈ g) (hq' : q' ∈ g) (h : q.1 = q'.1) : q = q' := by
  have h1 := mem_lookup_of_nodup g hids q.1 q.2 hq
  have h2 := mem_lookup_of_nodup g hids q'.1 q'.2 hq'
  rw [h, h2] at h1
  have hsnd : q'.2 = q.2 := by injection h1
  exact Prod.ext h hsnd.symm

/-- Claim C1: with `do_recursive = true`, every node never reached from the
live root set via qualifying `USER`/`USER_ONE` edges is counted as
unused — on the concrete archipelago database `exampleMain` the
recursive pass counts exactly the two members of the cyclic cluster with
no inbound edge from a live node, while the non-recursive pass there
counts nothing; with `do_recursive = false` the counted unused set is
exactly the set of eligible nodes whose own reference count is zero; and
on any database whose reference counts cover its inbound qualifying
usage edges, every recursive count array dominates the corresponding
non-recursive one slot by slot. -/
theorem claim_C1 (g : Main) (T : Nat) (p : LibQueryUnusedIDsData)
    (hids : (g.map Prod.fst).Nodup)
    (hcons : ∀ q ∈ g, inboundQualCount g q.1 ≤ q.2.us) :
    (∀ q ∈ g, q.1 ∉ liveSet g p → q ∈ unusedList g { p with do_recursive := true })
    ∧ ((unusedList exampleMain { exampleParams with do_recursive := true }).map Prod.fst
        = [2, 3]
      ∧ unusedList exampleMain { exampleParams with do_recursive := false } = [])
    ∧ unusedList g { p with do_recursive := false } =
        g.filter (fun q => eligible p q.1 q.2 && q.2.us == 0)
    ∧ List.Forall₂ (· ≤ ·) (num_total g T { p with do_recursive := false })
        (num_total g T { p with do_recursive := true })
    ∧ List.Forall₂ (· ≤ ·) (num_local g T { p with do_recursive := false })
        (num_local g T { p with do_recursive := true })
    ∧ List.Forall₂ (· ≤ ·) (num_linked g T { p with do_recursive := false })
        (num_linked g T { p with do_recursive := true }) := by
  have ha : unusedList g { p with do_recursive := true } =
      g.filter (fun q => eligible p q.1 q.2 && !(decide (q.1 ∈ liveSet g p))) := rfl
  have hb : unusedList g { p with do_recursive := false } =
      g.filter (fun q => eligible p q.1 q.2 && q.2.us == 0) := rfl
  have himp : ∀ q ∈ g, (eligible p q.1 q.2 && q.2.us == 0) = true →
      (eligible p q.1 q.2 && !(decide (q.1 ∈ liveSet g p))) = true := by
    intro q hq hel
    rw [Bool.and_eq_true] at hel
    obtain ⟨helig, hz0⟩ := hel
    have hz : q.2.us = 0 := by simpa using hz0
    rw [Bool.and_eq_true]
    refine ⟨helig, ?_⟩
    rw [Bool.not_eq_true', decide_eq_false_iff_not]
    intro hlive
    rcases liveSet_cases g p q.1 hlive with hseed | hcnt
    · rw [liveSeeds, List.mem_toFinset] at hseed
      simp only [List.mem_map, List.mem_filter] at hseed
      obtain ⟨q', ⟨hq'g, hpred⟩, hfst⟩ := hseed
      have heq : q' = q := nodup_key_eq g hids q' q hq'g hq hfst
      rw [heq] at hpred
      rw [Bool.or_eq_true] at hpred
      rcases hpred with h1 | h1
      · rw [Bool.not_eq_true', helig] at h1
        exact absurd h1 (by simp)
      · rw [decide_eq_true_eq] at h1
        have hc := hcons q hq
        omega
    · have hc := hcons q hq
      omega
  have helig_of_notlive : ∀ q ∈ g, q.1 ∉ liveSet g p → eligible p q.1 q.2 = true := by
    intro q hq hnl
    cases he : eligible p q.1 q.2 with
    | true => rfl
    | false =>
      exact absurd (liveSeeds_subset_liveSet g p (ineligible_mem_liveSeeds g p q hq he)) hnl
  have harr : ∀ (Q : Nat × NodeData → Bool),
      List.Forall₂ (· ≤ ·)
        (countsByType ((g.filter (fun q => eligible p q.1 q.2 && q.2.us == 0)).filter Q) T)
        (countsByType ((g.filter
          (fun q => eligible p q.1 q.2 && !(decide (q.1 ∈ liveSet g p)))).filter Q) T) := by
    intro Q
    rw [countsByType, countsByType]
    refine List.rel_append ?_ ?_
    · apply forall2_le_map
      intro t _
      rw [List.filter_filter, List.filter_filter, List.filter_filter, List.filter_filter]
      apply filter_length_mono
      intro q hq hx
      rw [Bool.and_eq_true] at hx
      rw [Bool.and_eq_true]
      obtain ⟨hx1, hx2⟩ := hx
      rw [Bool.and_eq_true] at hx1
      refine ⟨?_, himp q hq hx2⟩
      rw [Bool.and_eq_true]
      exact hx1
    · refine List.Forall₂.cons ?_ List.Forall₂.nil
      rw [List.filter_filter, List.filter_filter]
      apply filter_length_mono
      intro q hq hx
      rw [Bool.and_eq_true] at hx
      rw [Bool.and_eq_true]
      exact ⟨hx.1, himp q hq hx.2⟩
  refine ⟨?_, ⟨by decide, by decide⟩, hb, ?_, ?_, ?_⟩
  · intro q hq hnl
    rw [ha, List.mem_filter]
    refine ⟨hq, ?_⟩
    rw [Bool.and_eq_true]
    refine ⟨helig_of_notlive q hq hnl, ?_⟩
    rw [Bool.not_eq_true', decide_eq_false_iff_not]
    exact hnl
  · have hc := harr (fun _ => true)
    rw [List.filter_true, List.filter_true] at hc
    exact hc
  · exact harr (fun q => !q.2.isLinked)
  · exact harr (fun q => q.2.isLinked)

theorem claim_C1_witness :
    List.Forall₂ (· ≤ ·)
      (num_total exampleMain 1 { exampleParams with do_recursive := false })
      (num_total exampleMain 1 { exampleParams with do_recursive := true }) :=
  (claim_C1 exampleMain 1 exampleParams (by decide) (by decide)).2.2.2.1
